import Mathlib

deriving instance DecidableEq for Except

/-!
Verification of the zimusyoku admin console client logic: the job status
polling state machine (web/console/src/pages/JobDetail.tsx), the job list
refresher (web/console/src/pages/Jobs.tsx), the API client response handling
(modules/apiClient.ts), the unauthorized event bus (modules/authEvents.ts),
and the ledger normalization / currency aggregation utility (modules/ledger.ts).

The TypeScript is embedded shallowly: React state is an explicit record, each
handler becomes a pure state-transition function, asynchronous fetch results
are passed in as `Except` values, and the count of issued loads is returned
explicitly so scheduling claims can be stated. JavaScript numbers are modelled
as rationals that are rounded to the nearest IEEE binary64 value (round half
to even) after every arithmetic step, so decimal artefacts such as
`(1.335).toFixed(2) = "1.33"` are reproduced exactly.
-/

namespace Zimusyoku

set_option maxRecDepth 100000

/-! ## ASCII case folding (models String.prototype.toLowerCase / toUpperCase)

All status and currency strings in this codebase are ASCII, so the ASCII
fragment of the JavaScript case conversions is enough. -/

/-- ASCII lower-casing of one character, as `toLowerCase` acts on ASCII. -/
def jsCharToLower (c : Char) : Char :=
  if 65 ≤ c.toNat ∧ c.toNat ≤ 90 then Char.ofNat (c.toNat + 32) else c

/-- ASCII upper-casing of one character, as `toUpperCase` acts on ASCII. -/
def jsCharToUpper (c : Char) : Char :=
  if 97 ≤ c.toNat ∧ c.toNat ≤ 122 then Char.ofNat (c.toNat - 32) else c

/-- Models `s.toLowerCase()` on ASCII strings. -/
def jsToLower (s : String) : String := String.mk (s.data.map jsCharToLower)

/-- Models `s.toUpperCase()` on ASCII strings. -/
def jsToUpper (s : String) : String := String.mk (s.data.map jsCharToUpper)

/-- ASCII whitespace recognized by `String.prototype.trim` (the inputs in this
development never contain the non-ASCII whitespace JavaScript also strips). -/
def jsIsWhitespace (c : Char) : Bool :=
  c = ' ' ∨ c = '\t' ∨ c = '\n' ∨ c = '\r' ∨ c.toNat = 11 ∨ c.toNat = 12

/-- Models `s.trim()`: strip whitespace from both ends. -/
def jsTrim (s : String) : String :=
  String.mk (((s.data.dropWhile jsIsWhitespace).reverse.dropWhile jsIsWhitespace).reverse)

/-! ## Job Status Poller — web/console/src/pages/JobDetail.tsx

The component state is `job`, `loadState` and `isPolling` (lines 45-49).
`loadJob` (lines 64-81) becomes a function from the route id, the outcome of
`fetchJobById`, and the current state to the new state; it additionally
returns how many network fetches it issued (0 or 1) so the no-network-call
claims are statable. -/

/-- The fields of `JobDetailType` that the polling logic reads. The remaining
fields (journal entry, OCR payload, approval history) are presentational and
never influence a transition. -/
structure JobDetailType where
  id : String
  fileName : String
  status : String
  updatedAt : String
deriving DecidableEq, Repr

/-- The `loadState` union of JobDetail.tsx line 46. -/
inductive DetailLoadState
  | loading
  | error
  | success
deriving DecidableEq, Repr

/-- The component state of JobDetail.tsx (lines 45-49). -/
structure DetailState where
  job : Option JobDetailType
  loadState : DetailLoadState
  isPolling : Bool
deriving DecidableEq, Repr

/-- Initial state: `useState(null)`, `useState("loading")`, `useState(true)`. -/
def initialDetailState : DetailState :=
  { job := none, loadState := DetailLoadState.loading, isPolling := true }

/-- The terminal status set of JobDetail.tsx lines 75 and 92. -/
def terminalStatuses : List String := ["ok", "failed", "approved", "rejected"]

/-- `["ok","failed","approved","rejected"].includes(status.toLowerCase())`. -/
def isTerminalStatus (status : String) : Bool :=
  terminalStatuses.contains (jsToLower status)

/-- `loadJob` (JobDetail.tsx lines 64-81). Returns the new state and the
number of network fetches issued. If the id is absent it goes straight to
`error` with no fetch; on a successful fetch it stores the job, sets
`success`, and turns polling off when the (lower-cased) status is terminal;
on a failed fetch it only sets `error`. -/
def loadJob (id : Option String) (result : Except Unit JobDetailType)
    (s : DetailState) : DetailState × Nat :=
  match id with
  | none => ({ s with loadState := DetailLoadState.error }, 0)
  | some _ =>
    match result with
    | Except.ok j =>
      let s1 := { s with job := some j, loadState := DetailLoadState.success }
      (if isTerminalStatus j.status then { s1 with isPolling := false } else s1, 1)
    | Except.error _ => ({ s with loadState := DetailLoadState.error }, 1)

/-- Whether the polling `useEffect` (JobDetail.tsx lines 87-101) arms the
5000 ms interval: it returns early when `isPolling` is false, when no job has
been loaded, or when the loaded job has a terminal status. -/
def pollScheduleArmed (s : DetailState) : Bool :=
  s.isPolling &&
    (match s.job with
     | none => false
     | some j => !(isTerminalStatus j.status))

/-- The polling interval constant of JobDetail.tsx line 98. -/
def pollIntervalMs : Nat := 5000

/-- `togglePolling` (JobDetail.tsx lines 103-111). Returns the new state and
the number of `loadJob` invocations it issued: stopping issues none; resuming
sets `isPolling` to true and immediately invokes `loadJob` once. -/
def togglePolling (id : Option String) (result : Except Unit JobDetailType)
    (s : DetailState) : DetailState × Nat :=
  if s.isPolling then
    ({ s with isPolling := false }, 0)
  else
    ((loadJob id result { s with isPolling := true }).1, 1)

/-- The three mutually exclusive render branches of JobDetail.tsx
lines 113-135: the loading message, the error banner (which shows the
`notFound` string), and the job detail body. -/
inductive DetailView
  | loadingView
  | errorView
  | detailView
deriving DecidableEq, Repr

/-- The render dispatch of JobDetail.tsx: `loading` shows the spinner; then
`loadState === "error" || !job` shows the error banner; otherwise the detail
body renders. -/
def renderDetail (s : DetailState) : DetailView :=
  if s.loadState = DetailLoadState.loading then DetailView.loadingView
  else if s.loadState = DetailLoadState.error ∨ s.job = none then DetailView.errorView
  else DetailView.detailView

/-! ## Exact rational numbers with kernel-computable arithmetic

`Frac` is a fraction kept in lowest terms with a positive denominator; all
operations go through `mkFrac`, so values are canonical and structural
equality coincides with numeric equality. It is used to model JavaScript
numbers: see `flDouble` below, which rounds an exact rational to the nearest
IEEE binary64 value. -/

structure Frac where
  num : Int
  den : Int
deriving DecidableEq, Repr

/-- Build the canonical fraction `n / d` (for `d ≠ 0`): positive denominator,
lowest terms. -/
def mkFrac (n d : Int) : Frac :=
  let n' := if d < 0 then -n else n
  let d' := if d < 0 then -d else d
  let g : Int := Int.gcd n' d'
  if g = 0 then ⟨0, 1⟩ else ⟨n' / g, d' / g⟩

def Frac.ofInt (n : Int) : Frac := ⟨n, 1⟩

def Frac.add (a b : Frac) : Frac := mkFrac (a.num * b.den + b.num * a.den) (a.den * b.den)

def Frac.sub (a b : Frac) : Frac := mkFrac (a.num * b.den - b.num * a.den) (a.den * b.den)

def Frac.mul (a b : Frac) : Frac := mkFrac (a.num * b.num) (a.den * b.den)

def Frac.neg (a : Frac) : Frac := ⟨-a.num, a.den⟩

/-- Numeric strict order (denominators are positive by construction). -/
def Frac.lt (a b : Frac) : Prop := a.num * b.den < b.num * a.den

instance (a b : Frac) : Decidable (a.lt b) := by
  unfold Frac.lt
  infer_instance

def Frac.le (a b : Frac) : Prop := a.num * b.den ≤ b.num * a.den

instance (a b : Frac) : Decidable (a.le b) := by
  unfold Frac.le
  infer_instance

/-- Floor to an integer (`Int.fdiv` rounds toward negative infinity). -/
def Frac.floor (a : Frac) : Int := a.num.fdiv a.den

/-- `2 ^ z` as a fraction, for an integer exponent of either sign. -/
def pow2 (z : Int) : Frac :=
  if 0 ≤ z then ⟨2 ^ z.toNat, 1⟩ else ⟨1, 2 ^ (-z).toNat⟩

/-- One half, used by the rounding helpers. -/
def fracHalf : Frac := ⟨1, 2⟩

/-- Round to the nearest integer, ties to even (IEEE round-to-nearest). -/
def roundHalfEven (q : Frac) : Int :=
  let f := q.floor
  let r := q.sub (Frac.ofInt f)
  if r.lt fracHalf then f
  else if fracHalf.lt r then f + 1
  else if f % 2 = 0 then f else f + 1

/-- `log2fuel fuel n` is the position of the highest set bit of `n`
(`0` for `n < 2`); fuel-based structural recursion so the kernel can
evaluate it. -/
def log2fuel : Nat → Nat → Nat
  | 0, _ => 0
  | fuel + 1, n => if n < 2 then 0 else log2fuel fuel (n / 2) + 1

/-- For `0 < q < 1`: the number of doublings needed to reach `[1, 2)`. -/
def expDown : Nat → Frac → Nat
  | 0, _ => 0
  | fuel + 1, q =>
    if (Frac.ofInt 1).le q then 0 else expDown fuel (q.mul (Frac.ofInt 2)) + 1

/-- For `q > 0`: the binary exponent `e` with `2 ^ e ≤ q < 2 ^ (e + 1)`. -/
def binExp (q : Frac) : Int :=
  if (Frac.ofInt 1).le q then (log2fuel 4096 q.floor.toNat : Int)
  else -(expDown 4096 q : Int)

/-- Round a positive rational to the nearest binary64 value: scale the
mantissa into `[2 ^ 52, 2 ^ 53)`, round half to even, scale back. -/
def flDoublePos (q : Frac) : Frac :=
  let e := binExp q
  let m := roundHalfEven (q.mul (pow2 (52 - e)))
  (Frac.ofInt m).mul (pow2 (e - 52))

/-- Round an exact rational to the nearest IEEE binary64 value (round half to
even). Models the value of a JavaScript number. Valid on the normal range of
binary64 — every quantity in this development is far inside it; overflow and
subnormal rounding are out of modeled range. -/
def flDouble (q : Frac) : Frac :=
  if q.lt (Frac.ofInt 0) then (flDoublePos q.neg).neg
  else if q = Frac.ofInt 0 then Frac.ofInt 0
  else flDoublePos q

/-- JavaScript `x + y`: IEEE addition is the correctly rounded exact sum. -/
def jsAdd (x y : Frac) : Frac := flDouble (x.add y)

/-- The integer `n` produced by `x.toFixed(2)` read as `n / 100`: per the
ECMAScript specification, `n` minimizes the distance to `x * 100`, ties going
to the larger `n` (and a leading minus sign is emitted for negative `x`). -/
def jsToFixed2Int (x : Frac) : Int :=
  if x.lt (Frac.ofInt 0) then -(((x.neg.mul (Frac.ofInt 100)).add fracHalf).floor)
  else ((x.mul (Frac.ofInt 100)).add fracHalf).floor

/-- `Number.parseFloat(x.toFixed(2))`: the decimal string `n / 100` is parsed
back to the nearest binary64 value. -/
def jsParseFloatOfFixed2 (x : Frac) : Frac :=
  flDouble (mkFrac (jsToFixed2Int x) 100)

/-- `10 ^ z` as a fraction, for an integer exponent of either sign. -/
def pow10 (z : Int) : Frac :=
  if 0 ≤ z then ⟨10 ^ z.toNat, 1⟩ else ⟨1, 10 ^ (-z).toNat⟩

/-- Consume a maximal run of decimal digits: accumulated value, number of
digits consumed, remaining characters. -/
def takeDigits (acc : Nat) (count : Nat) : List Char → Nat × Nat × List Char
  | [] => (acc, count, [])
  | c :: cs =>
    if 48 ≤ c.toNat ∧ c.toNat ≤ 57 then
      takeDigits (acc * 10 + (c.toNat - 48)) (count + 1) cs
    else (acc, count, c :: cs)

/-- Models `Number.parseFloat`: skip leading whitespace, parse the longest
prefix of the form sign, digits, optional point and digits, optional
exponent; `none` models `NaN` (no digits found). The non-finite literal
`Infinity` is outside the modeled (finite) number range. The parsed decimal
value is rounded to the nearest binary64 value, as JavaScript does. -/
def parseFloatFrac (s : String) : Option Frac :=
  let cs0 := s.data.dropWhile jsIsWhitespace
  let signAndRest : Int × List Char :=
    match cs0 with
    | '-' :: rest => (-1, rest)
    | '+' :: rest => (1, rest)
    | _ => (1, cs0)
  let sign := signAndRest.1
  let (ip, ipCount, cs1) := takeDigits 0 0 signAndRest.2
  let fracPart : Nat × Nat × List Char :=
    match cs1 with
    | '.' :: rest => takeDigits 0 0 rest
    | _ => (0, 0, cs1)
  let (fp, fpCount, cs2) := fracPart
  if ipCount = 0 ∧ fpCount = 0 then none
  else
    let mantissa : Frac := mkFrac (sign * ((ip : Int) * 10 ^ fpCount + (fp : Int))) (10 ^ fpCount)
    let ex : Int :=
      match cs2 with
      | c :: rest =>
        if c = 'e' ∨ c = 'E' then
          let esignAndRest : Int × List Char :=
            match rest with
            | '-' :: r => (-1, r)
            | '+' :: r => (1, r)
            | _ => (1, rest)
          let (ev, ec, _) := takeDigits 0 0 esignAndRest.2
          if ec = 0 then 0 else esignAndRest.1 * (ev : Int)
        else 0
      | [] => 0
    some (flDouble (mantissa.mul (pow10 ex)))

/-! ## Ledger normalization and currency aggregation — modules/ledger.ts -/

/-- A raw `amount` / `amt` field: `number | string` in the source. -/
inductive RawAmount
  | num (q : Frac)
  | str (s : String)
deriving DecidableEq, Repr

/-- `RawLedgerRow` (ledger.ts lines 1-7): every field optional, with the
`acct` / `amt` aliases. -/
structure RawLedgerRow where
  account : Option String
  acct : Option String
  amount : Option RawAmount
  amt : Option RawAmount
  currency : Option String
deriving DecidableEq, Repr

/-- `NormalizedLedgerRow` (ledger.ts lines 9-13). -/
structure NormalizedLedgerRow where
  account : String
  amount : Frac
  currency : String
deriving DecidableEq, Repr

/-- `coerceNumber` (ledger.ts lines 15-24): missing value throws; a number
passes through; a string goes through `Number.parseFloat` and throws when the
result is `NaN`. -/
def coerceNumber (value : Option RawAmount) : Except String Frac :=
  match value with
  | none => Except.error "Missing amount/amt field"
  | some (RawAmount.num q) => Except.ok q
  | some (RawAmount.str st) =>
    match parseFloatFrac st with
    | none => Except.error "Amount is not numeric"
    | some q => Except.ok q

/-- `normalizeCurrency` (ledger.ts lines 26-28):
`(currency ?? "USD").trim().toUpperCase() || "USD"`. -/
def normalizeCurrency (currency : Option String) : String :=
  let t := jsToUpper (jsTrim (currency.getD "USD"))
  if t = "" then "USD" else t

/-- `(row.account ?? row.acct ?? "").toString().trim()` (ledger.ts line 35). -/
def resolvedAccount (row : RawLedgerRow) : String :=
  jsTrim ((row.account.orElse fun _ => row.acct).getD "")

/-- JavaScript `Map.set` on a map kept as an insertion-ordered association
list: an existing key keeps its position and gets the new value, a new key is
appended. -/
def upsert {β : Type} (k : String) (v : β) :
    List (String × β) → List (String × β)
  | [] => [(k, v)]
  | (k', v') :: rest => if k' = k then (k, v) :: rest else (k', v') :: upsert k v rest

/-- The normalized row `normalizeLedger` builds from one raw row (the object
literal of ledger.ts lines 39-43), with the throwing paths made explicit. -/
def buildRow (row : RawLedgerRow) : Except String NormalizedLedgerRow :=
  (coerceNumber (row.amount.orElse fun _ => row.amt)).map fun amount =>
    ⟨resolvedAccount row, amount, normalizeCurrency row.currency⟩

/-- The `rows.forEach` loop of `normalizeLedger` (ledger.ts lines 34-44),
threading the `seen` map; a throw aborts the whole call. -/
def normalizeLedgerAux :
    List RawLedgerRow → List (String × NormalizedLedgerRow) →
    Except String (List (String × NormalizedLedgerRow))
  | [], seen => Except.ok seen
  | row :: rest, seen =>
    let account := resolvedAccount row
    if account = "" then Except.error "Missing account/acct field"
    else
      match coerceNumber (row.amount.orElse fun _ => row.amt) with
      | Except.error e => Except.error e
      | Except.ok amount =>
        normalizeLedgerAux rest
          (upsert account ⟨account, amount, normalizeCurrency row.currency⟩ seen)

/-- `normalizeLedger` (ledger.ts lines 30-46): deduplicate by account via the
`seen` map and return `Array.from(seen.values())` in insertion order. -/
def normalizeLedger (rows : List RawLedgerRow) :
    Except String (List NormalizedLedgerRow) :=
  (normalizeLedgerAux rows []).map (List.map Prod.snd)

/-- `CurrencySummary.from` (ledger.ts lines 55-65): fold the rows into a
per-currency total map, rounding the running total with
`Number.parseFloat((current + row.amount).toFixed(2))` at every step.
(`from` is a Lean keyword, hence the flattened name.) -/
def currencySummaryFrom (rows : List NormalizedLedgerRow) : List (String × Frac) :=
  rows.foldl
    (fun totals row =>
      let current := (List.lookup row.currency totals).getD (Frac.ofInt 0)
      upsert row.currency (jsParseFloatOfFixed2 (jsAdd current row.amount)) totals)
    []

/-- The concrete ledger rows of the aggregation scenario:
`{account:"A",amount:1.335,currency:"eur"}` and
`{account:"B",amount:2.665,currency:"eur"}`. The numeric literals are the
binary64 values the JavaScript literals denote. -/
def c8Rows : List RawLedgerRow :=
  [⟨some "A", none, some (RawAmount.num (flDouble (mkFrac 1335 1000))), none, some "eur"⟩,
   ⟨some "B", none, some (RawAmount.num (flDouble (mkFrac 2665 1000))), none, some "eur"⟩]

/-! ## Job List Refresher — web/console/src/pages/Jobs.tsx

`refreshJobs` (lines 43-74) splits at the `await fetchJobs()` suspension
point into a synchronous start phase (spinner reset) and a settle phase
(success / failure continuation). -/

/-- The `LoadState` union of Jobs.tsx line 6. -/
inductive LoadState
  | loading
  | success
  | empty
  | error
deriving DecidableEq, Repr

/-- The fields of `JobSummary` the list logic carries (the rest is
presentational). -/
structure JobSummary where
  id : String
  fileName : String
  status : String
  approvalStatus : String
deriving DecidableEq, Repr

/-- The component state of Jobs.tsx (lines 35-39) that `refreshJobs`
touches. -/
structure JobsState where
  jobs : List JobSummary
  loadState : LoadState
  loadError : Option String
  pollingError : Option String
  lastUpdated : Option String
deriving DecidableEq, Repr

/-- Initial state of the list view: empty list, `loading`, no errors. -/
def initialJobsState : JobsState :=
  { jobs := [], loadState := LoadState.loading, loadError := none,
    pollingError := none, lastUpdated := none }

/-- `strings.jobs.error` (i18n/strings.ts, Japanese default locale). -/
def jobsErrorMessage : String :=
  "ジョブの取得に失敗しました。時間をおいて再度お試しください。"

/-- `strings.jobs.pollError` (i18n/strings.ts, Japanese default locale). -/
def jobsPollErrorMessage : String :=
  "最新の状態を取得できませんでした。ネットワークを確認のうえ再試行してください。"

/-- The background refresh interval of Jobs.tsx line 83. -/
def listRefreshIntervalMs : Nat := 15000

/-- The synchronous prefix of `refreshJobs` (Jobs.tsx lines 45-48), run
before the fetch suspends: with the spinner, reset to `loading` and clear the
load error; without it, leave the state untouched. -/
def refreshStart (withSpinner : Bool) (s : JobsState) : JobsState :=
  if withSpinner then { s with loadState := LoadState.loading, loadError := none } else s

/-- The continuation of `refreshJobs` after `fetchJobs` settles (Jobs.tsx
lines 50-71): on success store the list, derive `success` / `empty` from its
length, stamp `lastUpdated` and clear the poll error; on failure set the
fatal load error only when the spinner was requested, otherwise only the
non-fatal poll error. -/
def refreshSettle (withSpinner : Bool) (result : Except Unit (List JobSummary))
    (now : String) (s : JobsState) : JobsState :=
  match result with
  | Except.ok data =>
    { s with jobs := data,
             loadState := if data.length > 0 then LoadState.success else LoadState.empty,
             lastUpdated := some now,
             pollingError := none }
  | Except.error _ =>
    if withSpinner then
      { s with loadError := some jobsErrorMessage, loadState := LoadState.error }
    else
      { s with pollingError := some jobsPollErrorMessage }

/-- `refreshJobs(withSpinner)` end to end: start phase, then the settle phase
applied to the fetch outcome. -/
def refreshJobs (withSpinner : Bool) (result : Except Unit (List JobSummary))
    (now : String) (s : JobsState) : JobsState :=
  refreshSettle withSpinner result now (refreshStart withSpinner s)

/-! ## API client response handling — modules/apiClient.ts

`apiRequest` (lines 77-124) after the `fetch` settles: a network failure
rethrows, a 401 throws `UnauthorizedError`, any other non-2xx throws
`ApiError`, and a 2xx body is parsed. The second component of the result
records every call the function makes into the authEvents module
(`notifyUnauthorized`); the source contains no such call on any path. -/

/-- The observable part of a `fetch` `Response`. -/
structure HttpResponse where
  status : Nat
  bodyText : String
  statusText : String
deriving DecidableEq, Repr

/-- `response.ok`: status in the 2xx range. -/
def responseOk (r : HttpResponse) : Bool := 200 ≤ r.status && r.status ≤ 299

/-- The exceptions `apiRequest` can raise: a rethrown transport failure, the
`UnauthorizedError` of line 111, or the `ApiError` of line 120. -/
inductive ApiException
  | networkError
  | unauthorized
  | apiError (status : Nat) (message : String)
deriving DecidableEq, Repr

/-- `parseResponse` (apiClient.ts lines 61-70): `undefined` (modelled `none`)
for a 204 or an empty body, otherwise the parsed body. -/
def parseResponse (r : HttpResponse) : Option String :=
  if r.status = 204 then none
  else if r.bodyText = "" then none
  else some r.bodyText

/-- A call into the authEvents module. -/
inductive AuthBusCall
  | notifyUnauthorizedCall
deriving DecidableEq, Repr

/-- The response-handling stage of `apiRequest` (apiClient.ts lines 98-124),
paired with the list of authEvents calls it performs. -/
def apiRequestHandle (fetchResult : Except Unit HttpResponse) :
    Except ApiException (Option String) × List AuthBusCall :=
  match fetchResult with
  | Except.error _ => (Except.error ApiException.networkError, [])
  | Except.ok r =>
    if r.status = 401 then (Except.error ApiException.unauthorized, [])
    else if !(responseOk r) then
      (Except.error (ApiException.apiError r.status
        (if r.bodyText = "" then r.statusText else r.bodyText)), [])
    else (Except.ok (parseResponse r), [])

/-! ## Unauthorized event bus — modules/authEvents.ts

Handlers live in a JavaScript `Set`, so registration deduplicates by function
identity and iterates in insertion order. A handler is modelled by its
identity and by whether invoking it throws — the only behavior
`notifyUnauthorized` can observe. -/

/-- A subscribed handler: identity plus whether calling it throws. -/
structure UHandler where
  hid : Nat
  throws : Bool
deriving DecidableEq, Repr

/-- `subscribeToUnauthorized` (authEvents.ts lines 5-12): `Set.add` — a no-op
when the handler is already present, otherwise appended in insertion
order. -/
def subscribeToUnauthorized (h : UHandler) (hs : List UHandler) : List UHandler :=
  if hs.contains h then hs else hs ++ [h]

/-- The unsubscribe closure returned by `subscribeToUnauthorized`
(`Set.delete`). -/
def unsubscribeUnauthorized (h : UHandler) (hs : List UHandler) : List UHandler :=
  hs.filter (fun h' => h' != h)

/-- What the `notifyUnauthorized` loop does with one handler: an invocation,
followed by a caught-and-logged error when the handler throws. -/
inductive NotifyEvent
  | invoked (h : UHandler)
  | loggedError (h : UHandler)
deriving DecidableEq, Repr

/-- `notifyUnauthorized` (authEvents.ts lines 14-23): iterate all handlers;
each is invoked inside `try`, a throw is logged and the loop continues. The
function always returns (the event trace), so no handler exception reaches
the caller. -/
def notifyUnauthorized : List UHandler → List NotifyEvent
  | [] => []
  | h :: rest =>
    (if h.throws then [NotifyEvent.invoked h, NotifyEvent.loggedError h]
     else [NotifyEvent.invoked h]) ++ notifyUnauthorized rest

/-- Register a sequence of subscription requests against the initially empty
handler set. -/
def registerAll (reqs : List UHandler) : List UHandler :=
  reqs.foldl (fun hs h => subscribeToUnauthorized h hs) []

/-! ## Concrete sample values used by witnesses and counterexamples -/

/-- A job that is still in flight. -/
def sampleRunningJob : JobDetailType := ⟨"JOB-1", "a.pdf", "running", "t0"⟩

/-- A detail-view state in which a successful fetch already populated the
job and polling is active. -/
def c3PriorState : DetailState :=
  { job := some sampleRunningJob, loadState := DetailLoadState.success, isPolling := true }

/-- A detail-view state in which the user paused polling after a successful
fetch. -/
def pausedDetailState : DetailState :=
  { job := some sampleRunningJob, loadState := DetailLoadState.success, isPolling := false }

/-- A list-view state in which a fetch already succeeded with one job. -/
def loadedJobsState : JobsState :=
  { jobs := [⟨"JOB-1", "a.pdf", "running", "pending"⟩], loadState := LoadState.success,
    loadError := none, pollingError := none, lastUpdated := some "t1" }

/-! ## Claims -/

/-- C1: once `load()` observes a job status in the terminal set
(`ok`, `failed`, `approved`, `rejected`, compared case-insensitively), it
sets `isPolling` to false and the polling effect arms no further fetch. -/
theorem terminal_status_stops_polling (id : String) (j : JobDetailType)
    (s : DetailState) (hterm : isTerminalStatus j.status = true) :
    (loadJob (some id) (Except.ok j) s).1.isPolling = false ∧
      pollScheduleArmed (loadJob (some id) (Except.ok j) s).1 = false := by
  simp [loadJob, hterm, pollScheduleArmed]

/-- C1 witness: a mixed-case terminal status (`"Approved"`) observed from the
initial state. -/
theorem terminal_status_stops_polling_witness :
    isTerminalStatus "Approved" = true ∧
    ((loadJob (some "JOB-1") (Except.ok ⟨"JOB-1", "a.pdf", "Approved", "t0"⟩)
        initialDetailState).1.isPolling = false ∧
      pollScheduleArmed (loadJob (some "JOB-1")
        (Except.ok ⟨"JOB-1", "a.pdf", "Approved", "t0"⟩) initialDetailState).1 = false) :=
  ⟨by decide,
   terminal_status_stops_polling "JOB-1" ⟨"JOB-1", "a.pdf", "Approved", "t0"⟩
     initialDetailState (by decide)⟩

/-- C2: when the list was previously loaded (`success` or `empty`), a failed
background refresh (`refresh(false)`) only sets the poll-error banner: jobs,
`loadState`, `loadError` and `lastUpdated` are untouched, and `loadState`
never regresses to `error`. -/
theorem background_refresh_failure_is_nonfatal (e : Unit) (now : String)
    (s : JobsState)
    (hloaded : s.loadState = LoadState.success ∨ s.loadState = LoadState.empty) :
    refreshJobs false (Except.error e) now s =
      { s with pollingError := some jobsPollErrorMessage } ∧
    (refreshJobs false (Except.error e) now s).loadState ≠ LoadState.error := by
  refine ⟨rfl, ?_⟩
  rcases hloaded with h | h <;> simp [refreshJobs, refreshStart, refreshSettle, h]

/-- C2 witness: a background refresh failure on a state holding one
successfully fetched job. -/
theorem background_refresh_failure_is_nonfatal_witness :
    refreshJobs false (Except.error ()) "t2" loadedJobsState =
      { loadedJobsState with pollingError := some jobsPollErrorMessage } ∧
    (refreshJobs false (Except.error ()) "t2" loadedJobsState).loadState ≠ LoadState.error :=
  background_refresh_failure_is_nonfatal () "t2" loadedJobsState (Or.inl rfl)

/-- C3 counterexample: from a state where a successful fetch populated the
job (the detail body rendered), a single failed background poll keeps the job
in memory but switches the render to the error presentation — refuting that
only an initial-load failure may replace the detail view with an error
state. -/
theorem background_failure_replaces_detail_view :
    renderDetail c3PriorState = DetailView.detailView ∧
    (loadJob (some "JOB-1") (Except.error ()) c3PriorState).1.job = c3PriorState.job ∧
    renderDetail (loadJob (some "JOB-1") (Except.error ()) c3PriorState).1 =
      DetailView.errorView := by
  decide

/-- C3 amended: a failed background poll never overwrites the stored job and
never touches `isPolling`, but it unconditionally sets `loadState` to
`error`, so the error presentation replaces the detail view even when a
successful fetch had already populated it. -/
theorem background_failure_keeps_job_but_renders_error (id : String)
    (s : DetailState) (_hprior : s.loadState = DetailLoadState.success) :
    (loadJob (some id) (Except.error ()) s).1.job = s.job ∧
    (loadJob (some id) (Except.error ()) s).1.isPolling = s.isPolling ∧
    (loadJob (some id) (Except.error ()) s).1.loadState = DetailLoadState.error ∧
    renderDetail (loadJob (some id) (Except.error ()) s).1 = DetailView.errorView := by
  simp [loadJob, renderDetail]

/-- C3 amended witness: the same state the counterexample uses. -/
theorem background_failure_keeps_job_but_renders_error_witness :
    (loadJob (some "JOB-2") (Except.error ()) c3PriorState).1.job = c3PriorState.job ∧
    (loadJob (some "JOB-2") (Except.error ()) c3PriorState).1.isPolling =
      c3PriorState.isPolling ∧
    (loadJob (some "JOB-2") (Except.error ()) c3PriorState).1.loadState =
      DetailLoadState.error ∧
    renderDetail (loadJob (some "JOB-2") (Except.error ()) c3PriorState).1 =
      DetailView.errorView :=
  background_failure_keeps_job_but_renders_error "JOB-2" c3PriorState rfl

/-- C4: evaluated at a 401 response, the embedded `apiRequest` raises the
unauthorized error, but on no execution path does it call into the authEvents
module — its authEvents call trace is empty — so the registered handlers are
never notified and no fan-out happens. -/
theorem apiRequest_401_raises_without_fanout :
    apiRequestHandle (Except.ok ⟨401, "", "Unauthorized"⟩) =
      (Except.error ApiException.unauthorized, []) ∧
    ∀ r : Except Unit HttpResponse, (apiRequestHandle r).2 = [] := by
  refine ⟨rfl, ?_⟩
  intro r
  rcases r with _ | resp
  · rfl
  · simp only [apiRequestHandle]
    split <;> [rfl; split <;> rfl]

/-- C5: `togglePolling` while stopped sets `isPolling` to true and issues
exactly one immediate `load()` (the resulting state is the one `loadJob`
produces from the polling-enabled state); while polling it stops, issues no
load, and the polling effect arms no timer. -/
theorem togglePolling_correct (id : Option String)
    (result : Except Unit JobDetailType) (s : DetailState) :
    (s.isPolling = false →
      (togglePolling id result s).2 = 1 ∧
      (togglePolling id result s).1 = (loadJob id result { s with isPolling := true }).1) ∧
    (s.isPolling = true →
      (togglePolling id result s).1 = { s with isPolling := false } ∧
      (togglePolling id result s).2 = 0 ∧
      pollScheduleArmed (togglePolling id result s).1 = false) := by
  constructor
  · intro h
    simp [togglePolling, h]
  · intro h
    simp [togglePolling, h, pollScheduleArmed]

/-- C5 witness: resuming from a paused state and stopping from an active
state, both on a concrete in-flight job. -/
theorem togglePolling_correct_witness :
    ((togglePolling (some "JOB-1") (Except.ok sampleRunningJob) pausedDetailState).2 = 1 ∧
      (togglePolling (some "JOB-1") (Except.ok sampleRunningJob) pausedDetailState).1 =
        (loadJob (some "JOB-1") (Except.ok sampleRunningJob)
          { pausedDetailState with isPolling := true }).1) ∧
    ((togglePolling (some "JOB-1") (Except.ok sampleRunningJob) c3PriorState).1 =
        { c3PriorState with isPolling := false } ∧
      (togglePolling (some "JOB-1") (Except.ok sampleRunningJob) c3PriorState).2 = 0 ∧
      pollScheduleArmed
        (togglePolling (some "JOB-1") (Except.ok sampleRunningJob) c3PriorState).1 = false) :=
  ⟨(togglePolling_correct (some "JOB-1") (Except.ok sampleRunningJob) pausedDetailState).1 rfl,
   (togglePolling_correct (some "JOB-1") (Except.ok sampleRunningJob) c3PriorState).2 rfl⟩

/-- C6: with no job id, `load()` goes straight to the error (not-found)
presentation and issues no network fetch; and when no job was ever loaded, a
failed fetch for an unknown id lands in the error presentation with no job
stored and no polling interval armed. -/
theorem load_missing_id_or_unknown_job (r : Except Unit JobDetailType)
    (id : String) (s : DetailState) :
    (loadJob none r s = ({ s with loadState := DetailLoadState.error }, 0) ∧
      renderDetail (loadJob none r s).1 = DetailView.errorView) ∧
    (s.job = none →
      (loadJob (some id) (Except.error ()) s).1.loadState = DetailLoadState.error ∧
      (loadJob (some id) (Except.error ()) s).1.job = none ∧
      renderDetail (loadJob (some id) (Except.error ()) s).1 = DetailView.errorView ∧
      pollScheduleArmed (loadJob (some id) (Except.error ()) s).1 = false) := by
  constructor
  · constructor
    · rfl
    · simp [loadJob, renderDetail]
  · intro hj
    simp [loadJob, renderDetail, pollScheduleArmed, hj]

/-- C6 witness: the fresh mount state with a missing id and with a 404 for an
unknown id. -/
theorem load_missing_id_or_unknown_job_witness :
    (loadJob none (Except.ok sampleRunningJob) initialDetailState =
        ({ initialDetailState with loadState := DetailLoadState.error }, 0) ∧
      renderDetail (loadJob none (Except.ok sampleRunningJob) initialDetailState).1 =
        DetailView.errorView) ∧
    ((loadJob (some "NOPE") (Except.error ()) initialDetailState).1.loadState =
        DetailLoadState.error ∧
      (loadJob (some "NOPE") (Except.error ()) initialDetailState).1.job = none ∧
      renderDetail (loadJob (some "NOPE") (Except.error ()) initialDetailState).1 =
        DetailView.errorView ∧
      pollScheduleArmed (loadJob (some "NOPE") (Except.error ()) initialDetailState).1 =
        false) :=
  ⟨(load_missing_id_or_unknown_job (Except.ok sampleRunningJob) "NOPE"
      initialDetailState).1,
   (load_missing_id_or_unknown_job (Except.ok sampleRunningJob) "NOPE"
      initialDetailState).2 rfl⟩

/-- C7: `refresh(true)` resets to `loading` and clears the load error before
fetching; on success it stores the list, derives `success` for a non-empty
list and `empty` for a zero-length one, stamps `lastUpdated` and clears the
poll error; on failure it sets `error` and the user-facing load-error
message. -/
theorem refresh_with_spinner_correct (s : JobsState) (data : List JobSummary)
    (now : String) :
    ((refreshStart true s).loadState = LoadState.loading ∧
      (refreshStart true s).loadError = none) ∧
    ((refreshJobs true (Except.ok data) now s).jobs = data ∧
      (refreshJobs true (Except.ok data) now s).loadState =
        (if data.length > 0 then LoadState.success else LoadState.empty) ∧
      (refreshJobs true (Except.ok data) now s).lastUpdated = some now ∧
      (refreshJobs true (Except.ok data) now s).pollingError = none) ∧
    ((refreshJobs true (Except.error ()) now s).loadState = LoadState.error ∧
      (refreshJobs true (Except.error ()) now s).loadError = some jobsErrorMessage) :=
  ⟨⟨rfl, rfl⟩, ⟨rfl, rfl, rfl, rfl⟩, ⟨rfl, rfl⟩⟩

/-- C8: aggregating the normalized rows `(A, 1.335, eur)` and
`(B, 2.665, eur)` yields an EUR total of exactly 4 (JavaScript arithmetic:
`(0 + 1.335).toFixed(2) = "1.33"`, then `(1.33 + 2.665).toFixed(2) =
"4.00"`). -/
theorem eur_total_is_four :
    (normalizeLedger c8Rows).map
        (fun rows => List.lookup "EUR" (currencySummaryFrom rows)) =
      Except.ok (some (Frac.ofInt 4)) := by
  decide

/-! ## Auth event bus lemmas -/

/-- `Set.add` keeps the handler set duplicate-free. -/
theorem subscribe_nodup (h : UHandler) (hs : List UHandler) (hnd : hs.Nodup) :
    (subscribeToUnauthorized h hs).Nodup := by
  unfold subscribeToUnauthorized
  split
  · exact hnd
  · rename_i hc
    have hmem : h ∉ hs := fun hm => hc (List.elem_iff.mpr hm)
    simpa [← List.concat_eq_append] using List.Nodup.concat hmem hnd

/-- Any handler set built from subscription requests is duplicate-free. -/
theorem registerAll_nodup (reqs : List UHandler) : (registerAll reqs).Nodup := by
  suffices hgen : ∀ hs : List UHandler, hs.Nodup →
      (reqs.foldl (fun acc h => subscribeToUnauthorized h acc) hs).Nodup by
    exact hgen [] List.nodup_nil
  induction reqs with
  | nil => intro hs hnd; exact hnd
  | cons h rest ih =>
    intro hs hnd
    exact ih _ (subscribe_nodup h hs hnd)

/-- A handler outside the set is never invoked by the notification loop. -/
theorem notify_count_zero (h : UHandler) (hs : List UHandler) (hnotin : h ∉ hs) :
    (notifyUnauthorized hs).count (NotifyEvent.invoked h) = 0 := by
  induction hs with
  | nil => rfl
  | cons a rest ih =>
    have hne : h ≠ a := fun he => hnotin (he ▸ List.mem_cons_self a rest)
    have hrest : h ∉ rest := fun hm => hnotin (List.mem_cons_of_mem a hm)
    rcases ht : a.throws <;>
      simp [notifyUnauthorized, ht, List.count_cons, List.count_append, ih hrest, hne]

/-- In a duplicate-free handler set, the notification loop invokes a member
exactly once. -/
theorem notify_count_one (h : UHandler) (hs : List UHandler) (hnd : hs.Nodup)
    (hmem : h ∈ hs) :
    (notifyUnauthorized hs).count (NotifyEvent.invoked h) = 1 := by
  induction hs with
  | nil => cases hmem
  | cons a rest ih =>
    have hnda := List.nodup_cons.mp hnd
    rcases List.mem_cons.mp hmem with rfl | hmr
    · have hzero := notify_count_zero h rest hnda.1
      rcases ht : h.throws <;>
        simp [notifyUnauthorized, ht, List.count_cons, List.count_append, hzero]
    · have hne : h ≠ a := fun he => hnda.1 (he ▸ hmr)
      rcases ht : a.throws <;>
        simp [notifyUnauthorized, ht, List.count_cons, List.count_append,
          ih hnda.2 hmr, hne]

/-- The loop logs a caught error for a handler exactly when that handler is
present and throws. -/
theorem notify_logged_iff (h : UHandler) (hs : List UHandler) :
    NotifyEvent.loggedError h ∈ notifyUnauthorized hs ↔ h ∈ hs ∧ h.throws = true := by
  induction hs with
  | nil => simp [notifyUnauthorized]
  | cons a rest ih =>
    rcases ht : a.throws with _ | _
    · have hstep : notifyUnauthorized (a :: rest) =
          NotifyEvent.invoked a :: notifyUnauthorized rest := by
        simp [notifyUnauthorized, ht]
      rw [hstep]
      constructor
      · intro hm
        rcases List.mem_cons.mp hm with he | hm2
        · cases he
        · rcases ih.mp hm2 with ⟨hmem, hthr⟩
          exact ⟨List.mem_cons_of_mem a hmem, hthr⟩
      · rintro ⟨hmem, hthr⟩
        rcases List.mem_cons.mp hmem with rfl | hmr
        · simp [ht] at hthr
        · exact List.mem_cons_of_mem _ (ih.mpr ⟨hmr, hthr⟩)
    · have hstep : notifyUnauthorized (a :: rest) =
          NotifyEvent.invoked a :: NotifyEvent.loggedError a ::
            notifyUnauthorized rest := by
        simp [notifyUnauthorized, ht]
      rw [hstep]
      constructor
      · intro hm
        rcases List.mem_cons.mp hm with he | hm2
        · cases he
        · rcases List.mem_cons.mp hm2 with he | hm3
          · cases he
            exact ⟨List.mem_cons_self _ _, ht⟩
          · rcases ih.mp hm3 with ⟨hmem, hthr⟩
            exact ⟨List.mem_cons_of_mem a hmem, hthr⟩
      · rintro ⟨hmem, hthr⟩
        rcases List.mem_cons.mp hmem with rfl | hmr
        · exact List.mem_cons_of_mem _ (List.mem_cons_self _ _)
        · exact List.mem_cons_of_mem _
            (List.mem_cons_of_mem _ (ih.mpr ⟨hmr, hthr⟩))

/-- C10: for any sequence of subscriptions, `notifyUnauthorized` invokes each
registered handler exactly once; a throwing handler is caught and logged
(present in the trace exactly when it throws) and does not prevent the other
handlers from running — the count is one for every member regardless of the
`throws` flags. -/
theorem notify_invokes_each_registered_handler_once (reqs : List UHandler)
    (h : UHandler) (hmem : h ∈ registerAll reqs) :
    (notifyUnauthorized (registerAll reqs)).count (NotifyEvent.invoked h) = 1 ∧
    (NotifyEvent.loggedError h ∈ notifyUnauthorized (registerAll reqs) ↔
      h.throws = true) := by
  refine ⟨notify_count_one h _ (registerAll_nodup reqs) hmem, ?_⟩
  rw [notify_logged_iff]
  exact ⟨fun ⟨_, ht⟩ => ht, fun ht => ⟨hmem, ht⟩⟩

/-- C10 witness: two handlers, the first of which throws; both are invoked
exactly once and the throw of the first is logged. -/
theorem notify_invokes_each_registered_handler_once_witness :
    (⟨2, false⟩ : UHandler) ∈ registerAll [⟨1, true⟩, ⟨2, false⟩] ∧
    ((notifyUnauthorized (registerAll [⟨1, true⟩, ⟨2, false⟩])).count
        (NotifyEvent.invoked ⟨2, false⟩) = 1 ∧
      (NotifyEvent.loggedError ⟨2, false⟩ ∈
          notifyUnauthorized (registerAll [⟨1, true⟩, ⟨2, false⟩]) ↔
        (⟨2, false⟩ : UHandler).throws = true)) :=
  ⟨by decide,
   notify_invokes_each_registered_handler_once [⟨1, true⟩, ⟨2, false⟩] ⟨2, false⟩
     (by decide)⟩

/-! ## Ledger map lemmas -/

/-- The keys of an association-list map, in order. -/
def keysOf {β : Type} (m : List (String × β)) : List String := m.map Prod.fst

theorem upsert_cons_hit {β : Type} (k : String) (v w : β)
    (rest : List (String × β)) :
    upsert k v ((k, w) :: rest) = (k, v) :: rest := by
  simp [upsert]

theorem upsert_cons_miss {β : Type} (k k0 : String) (v w : β)
    (rest : List (String × β)) (h : k0 ≠ k) :
    upsert k v ((k0, w) :: rest) = (k0, w) :: upsert k v rest := by
  simp [upsert, h]

theorem mem_keysOf_of_mem {β : Type} {x : String} {y : β} :
    ∀ {m : List (String × β)}, (x, y) ∈ m → x ∈ keysOf m := by
  intro m hm
  induction m with
  | nil => cases hm
  | cons p rest ih =>
    rcases List.mem_cons.mp hm with rfl | hr
    · exact List.mem_cons_self _ _
    · exact List.mem_cons_of_mem _ (ih hr)

theorem mem_keys_upsert {β : Type} (x k : String) (v : β)
    (m : List (String × β)) :
    x ∈ keysOf (upsert k v m) ↔ x ∈ keysOf m ∨ x = k := by
  induction m with
  | nil => simp [upsert, keysOf]
  | cons p rest ih =>
    obtain ⟨k0, w⟩ := p
    by_cases hk : k0 = k
    · subst hk
      rw [upsert_cons_hit]
      show x ∈ k0 :: keysOf rest ↔ x ∈ k0 :: keysOf rest ∨ x = k0
      simp only [List.mem_cons]
      tauto
    · rw [upsert_cons_miss _ _ _ _ _ hk]
      show x ∈ k0 :: keysOf (upsert k v rest) ↔ x ∈ k0 :: keysOf rest ∨ x = k
      simp only [List.mem_cons, ih]
      tauto

theorem keys_upsert_nodup {β : Type} (k : String) (v : β)
    (m : List (String × β)) (hnd : (keysOf m).Nodup) :
    (keysOf (upsert k v m)).Nodup := by
  induction m with
  | nil => simp [upsert, keysOf]
  | cons p rest ih =>
    obtain ⟨k0, w⟩ := p
    have hnd' := List.nodup_cons.mp (show (k0 :: keysOf rest).Nodup from hnd)
    by_cases hk : k0 = k
    · subst hk
      rw [upsert_cons_hit]
      exact hnd
    · rw [upsert_cons_miss _ _ _ _ _ hk]
      show (k0 :: keysOf (upsert k v rest)).Nodup
      refine List.nodup_cons.mpr ⟨?_, ih hnd'.2⟩
      intro hmem
      rcases (mem_keys_upsert k0 k v rest).mp hmem with hin | heq
      · exact hnd'.1 hin
      · exact hk heq

theorem mem_upsert_cases {β : Type} (p : String × β) (k : String) (v : β)
    (m : List (String × β)) (hp : p ∈ upsert k v m) : p = (k, v) ∨ p ∈ m := by
  induction m with
  | nil => simpa [upsert] using hp
  | cons q rest ih =>
    obtain ⟨k0, w⟩ := q
    by_cases hk : k0 = k
    · subst hk
      rw [upsert_cons_hit] at hp
      rcases List.mem_cons.mp hp with he | hr
      · exact Or.inl he
      · exact Or.inr (List.mem_cons_of_mem _ hr)
    · rw [upsert_cons_miss _ _ _ _ _ hk] at hp
      rcases List.mem_cons.mp hp with he | hr
      · exact Or.inr (List.mem_cons.mpr (Or.inl he))
      · rcases ih hr with he | hm
        · exact Or.inl he
        · exact Or.inr (List.mem_cons_of_mem _ hm)

theorem mem_upsert_self {β : Type} (k : String) (v v' : β)
    (m : List (String × β)) (hnd : (keysOf m).Nodup)
    (hmem : (k, v') ∈ upsert k v m) : v' = v := by
  induction m with
  | nil =>
    simp [upsert] at hmem
    exact hmem
  | cons p rest ih =>
    obtain ⟨k0, w⟩ := p
    have hnd' := List.nodup_cons.mp (show (k0 :: keysOf rest).Nodup from hnd)
    by_cases hk : k0 = k
    · subst hk
      rw [upsert_cons_hit] at hmem
      rcases List.mem_cons.mp hmem with he | hm
      · simpa using he
      · exact absurd (mem_keysOf_of_mem hm) hnd'.1
    · rw [upsert_cons_miss _ _ _ _ _ hk] at hmem
      rcases List.mem_cons.mp hmem with he | hm
      · exfalso
        cases he
        exact hk rfl
      · exact ih hnd'.2 hm

theorem mem_upsert_ne {β : Type} (k' k : String) (v' v : β)
    (m : List (String × β)) (hne : k' ≠ k) :
    ((k', v') ∈ upsert k v m ↔ (k', v') ∈ m) := by
  induction m with
  | nil => simp [upsert, hne]
  | cons p rest ih =>
    obtain ⟨k0, w⟩ := p
    by_cases hk : k0 = k
    · subst hk
      rw [upsert_cons_hit]
      simp only [List.mem_cons, ih, Prod.mk.injEq]
      simp [hne]
    · rw [upsert_cons_miss _ _ _ _ _ hk]
      simp only [List.mem_cons, ih]

/-- The invariant the `seen` map keeps through the `normalizeLedger` loop:
keys stay duplicate-free, each entry records its own key as its account, and
each entry is either the normalization of the last input row so far with its
account, or (when no processed row matches) an entry the loop started
with. -/
theorem normalizeLedgerAux_spec (rows : List RawLedgerRow) :
    ∀ seen out : List (String × NormalizedLedgerRow),
    (keysOf seen).Nodup →
    (∀ p ∈ seen, (Prod.snd p).account = p.1) →
    normalizeLedgerAux rows seen = Except.ok out →
    (keysOf out).Nodup ∧
    (∀ p ∈ out, (Prod.snd p).account = p.1) ∧
    (∀ p ∈ out,
      (∃ raw, (rows.filter fun raw' => resolvedAccount raw' == p.1).getLast? = some raw ∧
        buildRow raw = Except.ok p.2) ∨
      ((rows.filter fun raw' => resolvedAccount raw' == p.1) = [] ∧ p ∈ seen)) := by
  induction rows with
  | nil =>
    intro seen out hnd hcons h
    have hso : seen = out := by
      simpa [normalizeLedgerAux] using h
    subst hso
    exact ⟨hnd, hcons, fun p hp => Or.inr ⟨rfl, hp⟩⟩
  | cons row rest ih =>
    intro seen out hnd hcons h
    simp only [normalizeLedgerAux] at h
    by_cases hacc : resolvedAccount row = ""
    · rw [if_pos hacc] at h
      cases h
    rw [if_neg hacc] at h
    rcases hco : coerceNumber (row.amount.orElse fun _ => row.amt) with e | amount
    · simp only [hco] at h
      exact Except.noConfusion h
    simp only [hco] at h
    obtain ⟨hndo, hconso, hlast⟩ :=
      ih (upsert (resolvedAccount row)
            ⟨resolvedAccount row, amount, normalizeCurrency row.currency⟩ seen) out
        (keys_upsert_nodup _ _ _ hnd)
        (by
          intro p hp
          rcases mem_upsert_cases p _ _ _ hp with he | hin
          · rw [he]
          · exact hcons p hin)
        h
    refine ⟨hndo, hconso, ?_⟩
    intro p hp
    by_cases hkey : resolvedAccount row = p.1
    · rw [List.filter_cons_of_pos (by simpa using hkey)]
      rcases hlast p hp with ⟨raw, hlastr, hbuild⟩ | ⟨hempty, hmem⟩
      · rcases hfil : (rest.filter fun raw' => resolvedAccount raw' == p.1) with _ | ⟨b, l⟩
        · rw [hfil] at hlastr
          cases hlastr
        · rw [hfil] at hlastr
          refine Or.inl ⟨raw, ?_, hbuild⟩
          rw [List.getLast?_cons_cons]
          exact hlastr
      · have hp2 : p.2 = ⟨resolvedAccount row, amount, normalizeCurrency row.currency⟩ := by
          have hpeq : p = (p.1, p.2) := rfl
          rw [hpeq, ← hkey] at hmem
          exact mem_upsert_self _ _ _ _ hnd hmem
        refine Or.inl ⟨row, ?_, ?_⟩
        · rw [hempty, List.getLast?_singleton]
        · simp [buildRow, hco, hp2, Except.map]
    · rw [List.filter_cons_of_neg (by simpa using hkey)]
      rcases hlast p hp with ⟨raw, hlastr, hbuild⟩ | ⟨hempty, hmem⟩
      · exact Or.inl ⟨raw, hlastr, hbuild⟩
      · refine Or.inr ⟨hempty, ?_⟩
        have hpeq : p = (p.1, p.2) := rfl
        rw [hpeq] at hmem ⊢
        exact (mem_upsert_ne p.1 (resolvedAccount row) p.2 _ seen
          fun he => hkey he.symm).mp hmem

/-- C9: on every successful run, `normalizeLedger` returns at most one row
per (alias-resolved, trimmed) account, and the returned row for an account is
built from the last input row carrying that account — earlier duplicates are
silently discarded, not summed and not an error. -/
theorem normalizeLedger_dedupes_last_write_wins (rows : List RawLedgerRow)
    (out : List NormalizedLedgerRow)
    (h : normalizeLedger rows = Except.ok out) :
    (out.map NormalizedLedgerRow.account).Nodup ∧
    ∀ r ∈ out, ∃ raw,
      (rows.filter fun raw' => resolvedAccount raw' == r.account).getLast? = some raw ∧
      buildRow raw = Except.ok r := by
  rcases haux : normalizeLedgerAux rows [] with e | entries
  · rw [normalizeLedger, haux] at h
    cases h
  have hout : out = entries.map Prod.snd := by
    rw [normalizeLedger, haux] at h
    exact (Except.ok.injEq _ _).mp h.symm |>.symm ▸ rfl
  obtain ⟨hnd, hcons, hlast⟩ :=
    normalizeLedgerAux_spec rows [] entries List.nodup_nil (by simp) haux
  constructor
  · have hmaps : out.map NormalizedLedgerRow.account = keysOf entries := by
      rw [hout, List.map_map, keysOf]
      exact List.map_congr_left fun p hp => hcons p hp
    rw [hmaps]
    exact hnd
  · intro r hr
    rw [hout] at hr
    rcases List.mem_map.mp hr with ⟨p, hpmem, hpsnd⟩
    have hacc : r.account = p.1 := by
      rw [← hpsnd]
      exact hcons p hpmem
    rcases hlast p hpmem with ⟨raw, hlastr, hbuild⟩ | ⟨_, hmem⟩
    · exact ⟨raw, by rw [hacc]; exact hlastr, by rw [← hpsnd]; exact hbuild⟩
    · cases hmem

/-- C9 witness: three rows where account `A` appears twice (once through the
`acct` alias with a string amount); the output keeps one row per account and
`A` carries the amount and currency of its last input row. -/
theorem normalizeLedger_dedupes_last_write_wins_witness :
    normalizeLedger
        [⟨none, some "A", none, some (RawAmount.str "1.25"), some "usd"⟩,
         ⟨some "A", none, some (RawAmount.num (Frac.ofInt 2)), none, some "USD"⟩,
         ⟨some "B", none, some (RawAmount.num (Frac.ofInt 3)), none, none⟩] =
      Except.ok [⟨"A", Frac.ofInt 2, "USD"⟩, ⟨"B", Frac.ofInt 3, "USD"⟩] ∧
    (([⟨"A", Frac.ofInt 2, "USD"⟩, ⟨"B", Frac.ofInt 3, "USD"⟩] :
        List NormalizedLedgerRow).map NormalizedLedgerRow.account).Nodup ∧
    ∀ r ∈ ([⟨"A", Frac.ofInt 2, "USD"⟩, ⟨"B", Frac.ofInt 3, "USD"⟩] :
        List NormalizedLedgerRow), ∃ raw,
      (([⟨none, some "A", none, some (RawAmount.str "1.25"), some "usd"⟩,
         ⟨some "A", none, some (RawAmount.num (Frac.ofInt 2)), none, some "USD"⟩,
         ⟨some "B", none, some (RawAmount.num (Frac.ofInt 3)), none, none⟩] :
          List RawLedgerRow).filter
        fun raw' => resolvedAccount raw' == r.account).getLast? = some raw ∧
      buildRow raw = Except.ok r :=
  ⟨by decide,
   normalizeLedger_dedupes_last_write_wins
     [⟨none, some "A", none, some (RawAmount.str "1.25"), some "usd"⟩,
      ⟨some "A", none, some (RawAmount.num (Frac.ofInt 2)), none, some "USD"⟩,
      ⟨some "B", none, some (RawAmount.num (Frac.ofInt 3)), none, none⟩]
     [⟨"A", Frac.ofInt 2, "USD"⟩, ⟨"B", Frac.ofInt 3, "USD"⟩] (by decide)⟩

end Zimusyoku
